import Mathlib

/-!
Shallow embedding of `src/lcm_mimic.py`, a small text-processing pipeline:
sentence segmentation filter, noun-overlap relation graph, "because"
cause-effect detector, single-slot context memory, 8-bit quantizer for
concept embeddings, and the final structured-output assembly.

Python strings are modelled as `List Char`; NumPy floats are modelled as
exact rationals `ℚ`; the fallible indexing `quantized_embeddings[0]`
is modelled with `Option`.  The external collaborators (spaCy sentence
segmentation, spaCy noun extraction, the sentence-embedding model) are
modelled as function parameters, since only their input/output contracts
are in scope.
-/

namespace LCM

/-- Python strings, modelled as lists of characters. -/
abbrev PyStr := List Char

/-- Whitespace test used by Python's `str.strip` (modelled by `Char.isWhitespace`). -/
def pyIsSpace (c : Char) : Bool := c.isWhitespace

/-- Python `s.strip()`: drop leading and trailing whitespace. -/
def pyStrip (s : PyStr) : PyStr :=
  ((s.dropWhile pyIsSpace).reverse.dropWhile pyIsSpace).reverse

/-- Python `s.lower()`: lowercase every character. -/
def pyLower (s : PyStr) : PyStr := s.map Char.toLower

/-- Python substring test `sub in s`. -/
def pyContains (sub s : PyStr) : Bool := s.tails.any (fun t => sub.isPrefixOf t)

/-- The literal `"because"` searched for by the pattern detector (line 89). -/
def becauseLit : PyStr := ['b', 'e', 'c', 'a', 'u', 's', 'e']

/-!  Quantizer (lines 116-123):
    `scaled = 127.5 * (vec + 1.0)`;
    `quantized = np.clip(scaled, 0, 255).astype(np.uint8)`.  -/

/-- NumPy `np.clip(x, lo, hi)`: clamp `x` into `[lo, hi]`. -/
def npClip (x lo hi : ℚ) : ℚ := max lo (min x hi)

/-- C-style float-to-integer conversion performed by `astype`: truncation toward zero. -/
def truncTowardZero (q : ℚ) : ℤ := if 0 ≤ q then ⌊q⌋ else -⌊-q⌋

/-- Quantization of one embedding component (lines 119-120): scale, clip to
`[0, 255]`, then convert with `astype(np.uint8)`; the clipped value is
non-negative and at most 255, so the `uint8` cast is plain truncation with no
wrap-around, and the result is returned as a natural number. -/
def quantizeComponent (v : ℚ) : ℕ :=
  (truncTowardZero (npClip (127.5 * (v + 1)) 0 255)).toNat

/-- Quantization of a whole embedding vector, componentwise. -/
def quantizeEmbedding (vec : List ℚ) : List ℕ := vec.map quantizeComponent

/-- The `quantized_embeddings` list built by the loop at lines 116-121. -/
def quantizedEmbeddings (embs : List (List ℚ)) : List (List ℕ) :=
  embs.map quantizeEmbedding

/-!  Sentence segmentation (lines 44-45):
    `sentences = [sent.text for sent in doc.sents if sent.text.strip()]`.
    The spaCy segmenter `doc.sents` is an external collaborator and is
    modelled as a parameter `segment : PyStr → List PyStr`.  -/

/-- The `sentences` list (line 45): segments whose stripped text is non-empty,
kept in segmenter order with their text unmodified. -/
def sentencesOf (segs : List PyStr) : List PyStr :=
  segs.filter (fun s => pyStrip s != [])

/-!  Relation graph (lines 64-77): nodes are sentence indices; for every pair
    `i < j` an edge is added iff the noun-lemma sets of the two sentences
    intersect.  The spaCy noun extraction
    `{token.lemma_.lower() for token in nlp(s) if token.pos_ == "NOUN"}`
    is external and is modelled as a parameter `extract : PyStr → Finset PyStr`.  -/

/-- The intersection test at line 76: `if nouns_i.intersection(nouns_j)`. -/
def nounsShared (extract : PyStr → Finset PyStr) (a b : PyStr) : Bool :=
  decide ((extract a ∩ extract b).Nonempty)

/-- The edge list of the graph `G` built by the nested loops at lines 70-77:
for `i` in `range(n)` and `j` in `range(i+1, n)`, edge `(i, j)` is added iff
the extracted noun sets of sentences `i` and `j` intersect. -/
def graphEdges (extract : PyStr → Finset PyStr) (ss : List PyStr) : List (ℕ × ℕ) :=
  (List.range ss.length).flatMap (fun i =>
    (List.range' (i + 1) (ss.length - (i + 1))).filterMap (fun j =>
      if nounsShared extract (ss.getD i []) (ss.getD j []) then some (i, j) else none))

/-- The inner loop body of the graph builder, for a fixed `i`. -/
def edgeRow (extract : PyStr → Finset PyStr) (ss : List PyStr) (i : ℕ) :
    List (ℕ × ℕ) :=
  (List.range' (i + 1) (ss.length - (i + 1))).filterMap (fun j =>
    if nounsShared extract (ss.getD i []) (ss.getD j []) then some (i, j) else none)

/-!  Cause-effect pattern detection (lines 87-90):
    `for i, s in enumerate(sentences): if "because" in s.lower(): append((i, s))`.  -/

/-- Detection test at line 89: `"because" in s.lower()`. -/
def hasBecause (s : PyStr) : Bool := pyContains becauseLit (pyLower s)

/-- The `cause_effect_pairs` list built at lines 87-90. -/
def causeEffectPairs (ss : List PyStr) : List (ℕ × PyStr) :=
  ss.enum.filter (fun p => hasBecause p.2)

/-!  Context memory (lines 103-105 and 139): a Python dict `memory_store`,
    written once via `memory_store[memory_key] = paragraph.strip()` and read
    via `memory_store.get(memory_key, "")`.  The dict is modelled as an
    association list in insertion order.  -/

/-- The fixed logical key `"paragraph_context"` (line 104). -/
def memoryKey : PyStr :=
  ['p', 'a', 'r', 'a', 'g', 'r', 'a', 'p', 'h', '_',
   'c', 'o', 'n', 't', 'e', 'x', 't']

/-- Python dict assignment `d[k] = v`: replace the value if the key is
present, otherwise append the new entry. -/
def memStore (m : List (PyStr × PyStr)) (k v : PyStr) : List (PyStr × PyStr) :=
  if (m.map Prod.fst).contains k then
    m.map (fun p => if p.1 = k then (k, v) else p)
  else m ++ [(k, v)]

/-- Python `d.get(k, "")`: the stored value when the key is present, the
empty string otherwise. -/
def memFetch (m : List (PyStr × PyStr)) (k : PyStr) : PyStr :=
  match m.find? (fun p => p.1 == k) with
  | some p => p.2
  | none => []

/-!  Output assembly (lines 116-141).  The embedding model
    (`model.encode`, line 55) is external and is modelled as a parameter
    `encode : List PyStr → List (List ℚ)`.  The indexing
    `quantized_embeddings[0]` at line 140 raises `IndexError` when the list
    is empty, so assembly is modelled as an `Option`.  -/

/-- The record printed at line 143, `final_structured_output`. -/
structure StructuredOutput where
  segmented_sentences : List PyStr
  cause_effect_sentences : List PyStr
  graph_edges : List (ℕ × ℕ)
  memory_reference : PyStr
  quantized_embeddings_preview : List ℕ
deriving Repr, DecidableEq

/-- The whole pipeline run on one input `paragraph`, with the external
collaborators (spaCy segmentation, spaCy noun extraction, the sentence
embedding model) as parameters.  Returns `none` exactly when the indexing
`quantized_embeddings[0]` at line 140 would raise `IndexError`. -/
def runPipeline (segment : PyStr → List PyStr)
    (encode : List PyStr → List (List ℚ))
    (extract : PyStr → Finset PyStr) (paragraph : PyStr) :
    Option StructuredOutput :=
  let sentences := sentencesOf (segment (pyStrip paragraph))
  let sentence_embeddings := encode sentences
  let q := quantizedEmbeddings sentence_embeddings
  let pairs := causeEffectPairs sentences
  let edges := graphEdges extract sentences
  let mem := memStore [] memoryKey (pyStrip paragraph)
  match q.head? with
  | none => none
  | some q0 =>
    some { segmented_sentences := sentences
           cause_effect_sentences := pairs.map Prod.snd
           graph_edges := edges
           memory_reference := memFetch mem memoryKey
           quantized_embeddings_preview := q0.take 10 }

/-!  Trivial concrete collaborators, used to instantiate the theorems about
    the pipeline on closed inputs.  -/

/-- A segmenter that always emits the one sentence `"a"`. -/
def segOne : PyStr → List PyStr := fun _ => [['a']]

/-- A segmenter that finds no sentences, as spaCy does on empty text. -/
def segEmpty : PyStr → List PyStr := fun _ => []

/-- An embedding model giving every sentence the one-dimensional zero vector. -/
def encZero : List PyStr → List (List ℚ) := fun ss => ss.map (fun _ => [(0 : ℚ)])

/-- An extractor that finds no concepts. -/
def extNone : PyStr → Finset PyStr := fun _ => ∅

/-!  Lemmas about the quantizer.  -/

lemma npClip_nonneg (x : ℚ) : 0 ≤ npClip x 0 255 := le_max_left _ _

lemma npClip_le (x : ℚ) : npClip x 0 255 ≤ 255 :=
  max_le (by norm_num) (min_le_right _ _)

lemma truncTowardZero_of_nonneg {q : ℚ} (h : 0 ≤ q) : truncTowardZero q = ⌊q⌋ :=
  if_pos h

/-- On the clipped value the `uint8` cast is just the floor. -/
lemma quantizeComponent_eq_floor (v : ℚ) :
    quantizeComponent v = (⌊npClip (127.5 * (v + 1)) 0 255⌋).toNat := by
  unfold quantizeComponent
  rw [truncTowardZero_of_nonneg (npClip_nonneg _)]

lemma quantizeComponent_le (v : ℚ) : quantizeComponent v ≤ 255 := by
  rw [quantizeComponent_eq_floor]
  have h : ⌊npClip (127.5 * (v + 1)) 0 255⌋ ≤ (255 : ℤ) := by
    have h2 := Int.floor_le_floor (α := ℚ) (npClip_le (127.5 * (v + 1)))
    simpa using h2
  omega

lemma npClip_mono {x y : ℚ} (h : x ≤ y) : npClip x 0 255 ≤ npClip y 0 255 :=
  max_le_max le_rfl (min_le_min h le_rfl)

lemma quantizeComponent_mono {v w : ℚ} (h : v ≤ w) :
    quantizeComponent v ≤ quantizeComponent w := by
  rw [quantizeComponent_eq_floor, quantizeComponent_eq_floor]
  have hc : npClip (127.5 * (v + 1)) 0 255 ≤ npClip (127.5 * (w + 1)) 0 255 :=
    npClip_mono (by nlinarith)
  exact Int.toNat_le_toNat (Int.floor_le_floor hc)

lemma npClip_of_nonpos {x : ℚ} (h : x ≤ 0) : npClip x 0 255 = 0 := by
  unfold npClip
  rw [min_eq_left (le_trans h (by norm_num)), max_eq_left h]

lemma npClip_of_ge {x : ℚ} (h : 255 ≤ x) : npClip x 0 255 = 255 := by
  unfold npClip
  rw [min_eq_right h, max_eq_right (by norm_num : (0 : ℚ) ≤ 255)]

lemma npClip_eq_self {x : ℚ} (h0 : 0 ≤ x) (h1 : x ≤ 255) : npClip x 0 255 = x := by
  unfold npClip
  rw [min_eq_left h1, max_eq_right h0]

lemma quantizeComponent_of_le_neg_one {v : ℚ} (h : v ≤ -1) :
    quantizeComponent v = 0 := by
  unfold quantizeComponent
  rw [npClip_of_nonpos (by linarith), truncTowardZero_of_nonneg le_rfl]
  simp

lemma quantizeComponent_of_one_le {v : ℚ} (h : 1 ≤ v) :
    quantizeComponent v = 255 := by
  unfold quantizeComponent
  rw [npClip_of_ge (by linarith), truncTowardZero_of_nonneg (by norm_num)]
  norm_num
  rfl

lemma quantizeComponent_neg_one : quantizeComponent (-1) = 0 :=
  quantizeComponent_of_le_neg_one le_rfl

lemma quantizeComponent_one : quantizeComponent 1 = 255 :=
  quantizeComponent_of_one_le le_rfl

lemma quantizeComponent_zero : quantizeComponent 0 = 127 := by
  norm_num [quantizeComponent, npClip, truncTowardZero]
  rfl

/-- Clipping before the integer conversion gives the same result as
converting first and clamping the integer afterwards. -/
lemma trunc_npClip_comm (x : ℚ) :
    (truncTowardZero (npClip x 0 255)).toNat =
      (max 0 (min (truncTowardZero x) 255)).toNat := by
  rcases le_or_lt 0 x with h0 | h0
  · rw [truncTowardZero_of_nonneg (npClip_nonneg x), truncTowardZero_of_nonneg h0]
    rcases le_or_lt x 255 with h1 | h1
    · rw [npClip_eq_self h0 h1]
      have hf0 : (0 : ℤ) ≤ ⌊x⌋ := Int.floor_nonneg.mpr h0
      have hf1 : ⌊x⌋ ≤ 255 := by
        have h := Int.floor_le_floor (α := ℚ) h1
        simpa using h
      rw [min_eq_left hf1, max_eq_right hf0]
    · rw [npClip_of_ge h1.le]
      have hf : (255 : ℤ) ≤ ⌊x⌋ := by
        rw [Int.le_floor]
        push_cast
        linarith
      rw [min_eq_right hf, max_eq_right (by norm_num : (0 : ℤ) ≤ 255)]
      norm_num
  · rw [npClip_of_nonpos h0.le, truncTowardZero_of_nonneg le_rfl]
    have ht : truncTowardZero x ≤ 0 := by
      unfold truncTowardZero
      rw [if_neg (not_le.mpr h0)]
      simp only [neg_nonpos]
      exact Int.floor_nonneg.mpr (by linarith)
    rw [min_eq_left (le_trans ht (by norm_num)), max_eq_left ht]
    simp

/-!  Claims about the quantizer.  -/

/-- C1: per real component `v`, the quantizer outputs
`clamp(truncate(127.5 * (v + 1)), 0, 255)` as an unsigned 8-bit integer:
every output lies in `[0, 255]`; `v = -1` maps to `0`, `v = 1` maps to
`255`, `v = 0` maps to `127` or `128`; and components outside `[-1, 1]`
are clamped to `0` or `255` with no error raised. -/
theorem C1_quantizer_contract :
    (∀ v : ℚ, quantizeComponent v =
        (max 0 (min (truncTowardZero (127.5 * (v + 1))) 255)).toNat) ∧
    (∀ v : ℚ, quantizeComponent v ≤ 255) ∧
    quantizeComponent (-1) = 0 ∧
    quantizeComponent 1 = 255 ∧
    (quantizeComponent 0 = 127 ∨ quantizeComponent 0 = 128) ∧
    (∀ v : ℚ, v < -1 → quantizeComponent v = 0) ∧
    (∀ v : ℚ, 1 < v → quantizeComponent v = 255) :=
  ⟨fun v => trunc_npClip_comm (127.5 * (v + 1)),
   quantizeComponent_le,
   quantizeComponent_neg_one,
   quantizeComponent_one,
   Or.inl quantizeComponent_zero,
   fun _ h => quantizeComponent_of_le_neg_one h.le,
   fun _ h => quantizeComponent_of_one_le h.le⟩

/-- Concrete instantiation of the out-of-range clauses of C1: the values
`-5` and `7` lie outside `[-1, 1]` and saturate to `0` and `255`. -/
theorem C1_quantizer_contract_witness :
    quantizeComponent (-5) = 0 ∧ quantizeComponent 7 = 255 :=
  ⟨C1_quantizer_contract.2.2.2.2.2.1 (-5) (by norm_num),
   C1_quantizer_contract.2.2.2.2.2.2 7 (by norm_num)⟩

/-- C8: quantization is monotone non-decreasing: `v < w` implies
`quantizeComponent v ≤ quantizeComponent w`. -/
theorem C8_quantizer_monotone (v w : ℚ) (h : v < w) :
    quantizeComponent v ≤ quantizeComponent w :=
  quantizeComponent_mono h.le

/-- Concrete instantiation of C8 at `v = 0 < w = 1`. -/
theorem C8_quantizer_monotone_witness :
    (0 : ℚ) < 1 ∧ quantizeComponent 0 ≤ quantizeComponent 1 :=
  ⟨by norm_num, C8_quantizer_monotone 0 1 (by norm_num)⟩

/-- C9: the `astype(np.uint8)` conversion is truncation toward zero, which on
the clipped (hence non-negative) value equals the floor, so the quantized
value of `v` is `floor(clamp(127.5 * (v + 1), 0, 255))`; in particular
`v = 0` maps exactly to `127`, not `128`. -/
theorem C9_round_or_truncate_is_floor :
    (∀ v : ℚ, quantizeComponent v = (⌊npClip (127.5 * (v + 1)) 0 255⌋).toNat) ∧
    quantizeComponent 0 = 127 :=
  ⟨quantizeComponent_eq_floor, quantizeComponent_zero⟩

/-!  Lemmas about the context memory.  -/

lemma memStore_empty (k v : PyStr) : memStore [] k v = [(k, v)] := by
  simp [memStore]

lemma memStore_overwrite (k v1 v2 : PyStr) :
    memStore [(k, v1)] k v2 = [(k, v2)] := by
  simp [memStore]

lemma memFetch_single_hit (k v : PyStr) : memFetch [(k, v)] k = v := by
  simp [memFetch, List.find?]

lemma memFetch_single_miss {k k' : PyStr} (h : k' ≠ k) (v : PyStr) :
    memFetch [(k, v)] k' = [] := by
  have hb : (k == k') = false := beq_eq_false_iff_ne.mpr (Ne.symm h)
  simp [memFetch, List.find?, hb]

/-- C6: the context memory slot: a store overwrites the single slot
unconditionally; a fetch returns the stored value when the key matches the
slot's key and the empty string otherwise; two same-key stores leave a single
entry holding the second value, so the slot holds at most one entry at all
times. -/
theorem C6_context_memory (k v1 v2 : PyStr) :
    memFetch (memStore (memStore [] k v1) k v2) k = v2 ∧
    (memStore [] k v1).length = 1 ∧
    (memStore (memStore [] k v1) k v2).length = 1 ∧
    (∀ k', k' ≠ k → memFetch (memStore (memStore [] k v1) k v2) k' = []) ∧
    memFetch [] k = [] := by
  rw [memStore_empty, memStore_overwrite]
  exact ⟨memFetch_single_hit k v2, by simp, by simp,
    fun k' h => memFetch_single_miss h v2, by simp [memFetch]⟩

/-- Concrete instantiation of C6 at the pipeline's actual key. -/
theorem C6_context_memory_witness :
    memFetch (memStore (memStore [] memoryKey ['a']) memoryKey ['b']) memoryKey
        = ['b'] ∧
    memFetch (memStore (memStore [] memoryKey ['a']) memoryKey ['b']) ['z']
        = [] :=
  ⟨(C6_context_memory memoryKey ['a'] ['b']).1,
   (C6_context_memory memoryKey ['a'] ['b']).2.2.2.1 ['z'] (by decide)⟩

/-!  Lemmas about segmentation.  -/

lemma pyStrip_eq_nil_of_all_space {s : PyStr}
    (h : ∀ c ∈ s, pyIsSpace c = true) : pyStrip s = [] := by
  unfold pyStrip
  rw [List.dropWhile_eq_nil_iff.mpr h]
  simp

lemma exists_nonspace_of_strip_ne_nil {s : PyStr} (h : pyStrip s ≠ []) :
    ∃ c ∈ s, pyIsSpace c = false := by
  by_contra hc
  push_neg at hc
  refine h (pyStrip_eq_nil_of_all_space (fun c hcs => ?_))
  cases hb : pyIsSpace c
  · exact absurd hb (hc c hcs)
  · rfl

lemma mem_sentencesOf {segs : List PyStr} {s : PyStr} :
    s ∈ sentencesOf segs ↔ s ∈ segs ∧ pyStrip s ≠ [] := by
  unfold sentencesOf
  simp [List.mem_filter]

/-- C7: when the segmenter collaborator meets its contract of emitting
whitespace-trimmed strings, every element of `segmented_sentences` is a
non-empty, whitespace-trimmed string, and the list is a sublist of the
segmenter's output, so its order matches the source order. -/
theorem C7_sentences_trimmed_nonempty (segs : List PyStr)
    (hcontract : ∀ s ∈ segs, pyStrip s = s) :
    (∀ s ∈ sentencesOf segs, s ≠ [] ∧ pyStrip s = s) ∧
    (sentencesOf segs).Sublist segs := by
  constructor
  · intro s hs
    rw [mem_sentencesOf] at hs
    refine ⟨?_, hcontract s hs.1⟩
    intro hnil
    apply hs.2
    rw [hnil]
    rfl
  · exact List.filter_sublist _

/-- Concrete instantiation of C7 on the segmenter output `["a"]`. -/
theorem C7_sentences_trimmed_nonempty_witness :
    (['a'] ≠ ([] : PyStr) ∧ pyStrip ['a'] = ['a']) ∧
    (sentencesOf [['a']]).Sublist [['a']] :=
  ⟨(C7_sentences_trimmed_nonempty [['a']] (by decide)).1 ['a'] (by decide),
   (C7_sentences_trimmed_nonempty [['a']] (by decide)).2⟩

/-!  Lemmas about the pattern detector.  -/

lemma mem_causeEffectPairs {ss : List PyStr} {i : ℕ} {t : PyStr} :
    (i, t) ∈ causeEffectPairs ss ↔ ss[i]? = some t ∧ hasBecause t = true := by
  unfold causeEffectPairs
  rw [List.mem_filter, List.mk_mem_enum_iff_getElem?]

lemma snd_mem_of_mem_causeEffectPairs {ss : List PyStr} {p : ℕ × PyStr}
    (hp : p ∈ causeEffectPairs ss) : p.2 ∈ ss := by
  have h := mem_causeEffectPairs.mp (show (p.1, p.2) ∈ causeEffectPairs ss from hp)
  exact List.getElem?_mem h.1

/-- C10: every element of `segmented_sentences` contains at least one
non-whitespace character; segments that are empty or all-whitespace are
filtered out, and in particular every cause-effect marker's text also
contains a non-whitespace character. -/
theorem C10_blank_segments_excluded (segs : List PyStr) :
    (∀ s ∈ sentencesOf segs, ∃ c ∈ s, pyIsSpace c = false) ∧
    (∀ s : PyStr, pyStrip s = [] → s ∉ sentencesOf segs) ∧
    (∀ p ∈ causeEffectPairs (sentencesOf segs), ∃ c ∈ p.2, pyIsSpace c = false) := by
  have h1 : ∀ s ∈ sentencesOf segs, ∃ c ∈ s, pyIsSpace c = false :=
    fun s hs => exists_nonspace_of_strip_ne_nil (mem_sentencesOf.mp hs).2
  refine ⟨h1, ?_, ?_⟩
  · intro s hnil hs
    exact (mem_sentencesOf.mp hs).2 hnil
  · intro p hp
    exact h1 p.2 (snd_mem_of_mem_causeEffectPairs hp)

/-- Concrete instantiation of C10: the all-whitespace segment `" "` is
excluded from the sentences of `[" ", "a"]`. -/
theorem C10_blank_segments_excluded_witness :
    pyStrip [' '] = [] ∧ [' '] ∉ sentencesOf [[' '], ['a']] :=
  ⟨by decide, (C10_blank_segments_excluded [[' '], ['a']]).2.1 [' '] (by decide)⟩

/-- C4: the pattern detector returns exactly the (index, text) pairs of
sentences whose lowercased text contains the literal substring `"because"`,
in ascending index order, the text being the sentence's original unmodified
text. -/
theorem C4_pattern_detector (ss : List PyStr) :
    (∀ (i : ℕ) (t : PyStr),
      ((i, t) ∈ causeEffectPairs ss ↔
        ss[i]? = some t ∧ pyContains becauseLit (pyLower t) = true)) ∧
    ((causeEffectPairs ss).map Prod.fst).Pairwise (· < ·) := by
  constructor
  · intro i t
    exact mem_causeEffectPairs
  · have hsub : List.Sublist ((causeEffectPairs ss).map Prod.fst)
        (ss.enum.map Prod.fst) :=
      (List.filter_sublist _).map Prod.fst
    have henum : ss.enum.map Prod.fst = List.range' 0 ss.length :=
      List.enumFrom_map_fst 0 ss
    rw [henum] at hsub
    exact (List.pairwise_lt_range' 0 ss.length).sublist hsub

/-- Concrete instantiation of C4 on the single sentence `"xbecause"`:
the pair (0, "xbecause") is detected. -/
theorem C4_pattern_detector_witness :
    (0, ['x', 'b', 'e', 'c', 'a', 'u', 's', 'e']) ∈
      causeEffectPairs [['x', 'b', 'e', 'c', 'a', 'u', 's', 'e']] :=
  ((C4_pattern_detector [['x', 'b', 'e', 'c', 'a', 'u', 's', 'e']]).1 0
    ['x', 'b', 'e', 'c', 'a', 'u', 's', 'e']).mpr (by decide)

/-!  Lemmas about the relation graph.  -/

lemma graphEdges_eq_flatMap (extract : PyStr → Finset PyStr) (ss : List PyStr) :
    graphEdges extract ss = (List.range ss.length).flatMap (edgeRow extract ss) :=
  rfl

lemma mem_edgeRow {extract : PyStr → Finset PyStr} {ss : List PyStr}
    {i : ℕ} {e : ℕ × ℕ} :
    e ∈ edgeRow extract ss i ↔
      e.1 = i ∧ i + 1 ≤ e.2 ∧ e.2 < i + 1 + (ss.length - (i + 1)) ∧
        nounsShared extract (ss.getD i []) (ss.getD e.2 []) = true := by
  unfold edgeRow
  rw [List.mem_filterMap]
  constructor
  · rintro ⟨j, hj, hopt⟩
    rw [List.mem_range'_1] at hj
    split at hopt
    · rename_i hcond
      cases hopt
      exact ⟨rfl, hj.1, hj.2, hcond⟩
    · cases hopt
  · rintro ⟨h1, h2, h3, hcond⟩
    refine ⟨e.2, List.mem_range'_1.mpr ⟨h2, h3⟩, ?_⟩
    rw [← h1] at hcond
    rw [← h1, hcond]
    simp [Prod.ext_iff]

lemma mem_graphEdges {extract : PyStr → Finset PyStr} {ss : List PyStr}
    {a b : ℕ} :
    (a, b) ∈ graphEdges extract ss ↔
      a < b ∧ b < ss.length ∧
        (extract (ss.getD a []) ∩ extract (ss.getD b [])).Nonempty := by
  rw [graphEdges_eq_flatMap, List.mem_flatMap]
  constructor
  · rintro ⟨i, hi, he⟩
    rw [List.mem_range] at hi
    rw [mem_edgeRow] at he
    obtain ⟨h1, h2, h3, hcond⟩ := he
    simp only at h1 h2 h3 hcond
    subst h1
    have hb : b < ss.length := by omega
    refine ⟨by omega, hb, ?_⟩
    have := of_decide_eq_true hcond
    exact this
  · rintro ⟨hab, hb, hshared⟩
    refine ⟨a, List.mem_range.mpr (lt_trans hab hb), ?_⟩
    rw [mem_edgeRow]
    refine ⟨rfl, by omega, by omega, decide_eq_true hshared⟩

lemma edgeRow_fst {extract : PyStr → Finset PyStr} {ss : List PyStr}
    {i : ℕ} {e : ℕ × ℕ} (he : e ∈ edgeRow extract ss i) : e.1 = i :=
  (mem_edgeRow.mp he).1

lemma graphEdges_nodup (extract : PyStr → Finset PyStr) (ss : List PyStr) :
    (graphEdges extract ss).Nodup := by
  rw [graphEdges_eq_flatMap, List.nodup_flatMap]
  constructor
  · intro i _
    apply List.Nodup.filterMap ?_ (List.nodup_range' _ _)
    intro j j' e hj hj'
    simp only [Option.mem_def] at hj hj'
    split at hj
    · cases hj
      split at hj'
      · cases hj'
        rfl
      · cases hj'
    · cases hj
  · refine (List.nodup_range ss.length).pairwise_of_forall_ne ?_
    intro i hi i' hi' hne e he he'
    exact hne ((edgeRow_fst he).symm.trans (edgeRow_fst he'))

/-- C2: the relation graph contains edge `(i, j)` with `i < j` exactly when
the extracted concept sets of sentences `i` and `j` intersect; it has no
self-loops and no duplicate edges, and a sentence with an empty concept set
participates in no edge. -/
theorem C2_relation_graph (extract : PyStr → Finset PyStr) (ss : List PyStr) :
    (∀ a b : ℕ,
      ((a, b) ∈ graphEdges extract ss ↔
        a < b ∧ b < ss.length ∧
          (extract (ss.getD a []) ∩ extract (ss.getD b [])).Nonempty)) ∧
    (∀ a : ℕ, (a, a) ∉ graphEdges extract ss) ∧
    (graphEdges extract ss).Nodup ∧
    (∀ i : ℕ, extract (ss.getD i []) = ∅ →
      ∀ e ∈ graphEdges extract ss, e.1 ≠ i ∧ e.2 ≠ i) := by
  refine ⟨fun a b => mem_graphEdges, ?_, graphEdges_nodup extract ss, ?_⟩
  · intro a ha
    exact absurd (mem_graphEdges.mp ha).1 (lt_irrefl a)
  · intro i hemp e he
    have h := mem_graphEdges.mp (show (e.1, e.2) ∈ graphEdges extract ss from he)
    constructor
    · intro h1
      rw [h1, hemp] at h
      simpa using h.2.2
    · intro h2
      rw [h2, hemp] at h
      simpa using h.2.2

/-- Concrete instantiation of C2 on the sentences `["a", "a", "b"]` with
concept extraction `{s}` except the empty set on `"b"`: edge `(0, 1)` is
present, no self-loop `(0, 0)` exists, and sentence `2` (empty concept set)
is in no edge, e.g. `(0, 2)` is absent. -/
theorem C2_relation_graph_witness :
    (0, 1) ∈ graphEdges
        (fun s => if s = ['b'] then (∅ : Finset PyStr) else {s})
        [['a'], ['a'], ['b']] ∧
    (0, 0) ∉ graphEdges
        (fun s => if s = ['b'] then (∅ : Finset PyStr) else {s})
        [['a'], ['a'], ['b']] ∧
    (0, 2) ∉ graphEdges
        (fun s => if s = ['b'] then (∅ : Finset PyStr) else {s})
        [['a'], ['a'], ['b']] := by
  refine ⟨?_, ?_, ?_⟩
  · exact ((C2_relation_graph _ _).1 0 1).mpr (by decide)
  · exact (C2_relation_graph _ _).2.1 0
  · intro hmem
    exact ((C2_relation_graph _ _).2.2.2 2 (by decide) (0, 2) hmem).2 rfl

/-!  Lemmas about the assembled pipeline.  -/

/-- With zero sentences the embedding list is empty, `quantized_embeddings`
is empty, and the indexing `quantized_embeddings[0]` at line 140 fails. -/
lemma runPipeline_none_of_no_sentences (segment : PyStr → List PyStr)
    (encode : List PyStr → List (List ℚ)) (extract : PyStr → Finset PyStr)
    (paragraph : PyStr)
    (h : sentencesOf (segment (pyStrip paragraph)) = [])
    (henc : encode [] = []) :
    runPipeline segment encode extract paragraph = none := by
  simp only [runPipeline, h, henc]
  rfl

/-- C3 (testing the spec's EmptyInputCondition on the code): on empty input
segmentation yields zero sentences, so `quantized_embeddings` is empty and
the assembly at line 140 indexes `quantized_embeddings[0]` on an empty
array, which fails (IndexError), modelled as `none`: the run produces no
StructuredOutput at all, rather than one with empty sequence fields. -/
theorem C3_empty_input_run_fails :
    runPipeline segEmpty encZero extNone [] = none :=
  runPipeline_none_of_no_sentences segEmpty encZero extNone [] rfl rfl

/-- C5: with at least one sentence and an embedding model honouring its
contract (one vector per sentence), the run succeeds and
`quantized_embeddings_preview` is exactly the first `min(10, D)` components
of the first sentence's quantized embedding, every component at most 255. -/
theorem C5_preview_first_ten (segment : PyStr → List PyStr)
    (encode : List PyStr → List (List ℚ))
    (extract : PyStr → Finset PyStr) (paragraph : PyStr)
    (hne : sentencesOf (segment (pyStrip paragraph)) ≠ [])
    (hlen : (encode (sentencesOf (segment (pyStrip paragraph)))).length =
      (sentencesOf (segment (pyStrip paragraph))).length) :
    ∃ out, runPipeline segment encode extract paragraph = some out ∧
      out.quantized_embeddings_preview =
        (quantizeEmbedding
          ((encode (sentencesOf (segment (pyStrip paragraph)))).headI)).take 10 ∧
      out.quantized_embeddings_preview.length =
        min 10 ((encode (sentencesOf (segment (pyStrip paragraph)))).headI).length ∧
      ∀ x ∈ out.quantized_embeddings_preview, x ≤ 255 := by
  have hemb : encode (sentencesOf (segment (pyStrip paragraph))) ≠ [] := by
    intro h0
    rw [h0] at hlen
    exact hne (List.eq_nil_of_length_eq_zero hlen.symm)
  obtain ⟨e0, rest, hsplit⟩ := List.exists_cons_of_ne_nil hemb
  have hrun : runPipeline segment encode extract paragraph =
      some { segmented_sentences := sentencesOf (segment (pyStrip paragraph))
             cause_effect_sentences :=
               (causeEffectPairs (sentencesOf (segment (pyStrip paragraph)))).map
                 Prod.snd
             graph_edges := graphEdges extract (sentencesOf (segment (pyStrip paragraph)))
             memory_reference := memFetch (memStore [] memoryKey (pyStrip paragraph))
               memoryKey
             quantized_embeddings_preview := (quantizeEmbedding e0).take 10 } := by
    simp only [runPipeline, hsplit]
    rfl
  refine ⟨_, hrun, ?_, ?_, ?_⟩
  · rw [hsplit]
    rfl
  · rw [hsplit]
    simp [quantizeEmbedding, List.length_take]
  · intro x hx
    have hx2 : x ∈ quantizeEmbedding e0 := List.mem_of_mem_take hx
    obtain ⟨v, _, hv⟩ := List.mem_map.mp hx2
    rw [← hv]
    exact quantizeComponent_le v

/-- Concrete instantiation of C5 with a one-sentence segmenter and a
one-dimensional embedding model. -/
theorem C5_preview_first_ten_witness :
    sentencesOf (segOne (pyStrip ['a'])) ≠ [] ∧
    (∃ out, runPipeline segOne encZero extNone ['a'] = some out ∧
      out.quantized_embeddings_preview =
        (quantizeEmbedding
          ((encZero (sentencesOf (segOne (pyStrip ['a'])))).headI)).take 10 ∧
      out.quantized_embeddings_preview.length =
        min 10 ((encZero (sentencesOf (segOne (pyStrip ['a'])))).headI).length ∧
      ∀ x ∈ out.quantized_embeddings_preview, x ≤ 255) :=
  ⟨by decide, C5_preview_first_ten segOne encZero extNone ['a'] (by decide) rfl⟩

end LCM
